import Mathlib

/-!
Verification development for the `alblogs` tool: a shallow embedding of its
schema builder, ARN parsing, S3 prefix/candidate-key selection, metadata
resolution, and the transactional log-file ingestion loop, together with
theorems settling the specification claims.

Conventions of the embedding:
* Machine strings are Lean `String`s; instants are `Int` seconds since the
  Unix epoch (Go `time.Time` comparisons and arithmetic only use the
  absolute instant); durations are in seconds, so `5 * time.Minute` is
  `5 * 60`.
* External library effects (S3, the ELB control-plane API, the sqlite
  engine, gzip/CSV decoding, the JSON cache decoder) are modelled as
  explicit inputs or as small semantic functions, each documented at its
  definition site.
* A single quote character inside generated SQL text is written with the
  escape `\x27`.
-/

/-- The single-quote character used by the generated SQL statements. -/
def sqQuote : String := "\x27"

/-! ## SchemaBuilder (src/main.go, `databaseSchema` and `insertStatement`) -/

/-- Column type switch from `databaseSchema` (src/main.go lines 244-251):
an exact-name switch mapping the enumerated byte/status/priority columns to
`INTEGER`, the processing-time columns to `REAL`, and everything else to the
empty annotation. -/
def colType (col : String) : String :=
  if col = "elb_status_code" ∨ col = "target_status_code" ∨
     col = "received_bytes" ∨ col = "sent_bytes" ∨
     col = "matched_rule_priority" then "INTEGER"
  else if col = "request_processing_time" ∨ col = "target_processing_time" ∨
          col = "response_processing_time" then "REAL"
  else ""

/-- Body of the `create table` statement built by the loop in
`databaseSchema` (src/main.go lines 242-263): one line per column, in order,
quoted name followed by its type annotation when non-empty, with a comma on
every line but the last. -/
def tableLines : List String → String
  | [] => ""
  | [c] => "    " ++ sqQuote ++ c ++ sqQuote ++
      (if colType c = "" then "" else " " ++ colType c) ++ "\n"
  | c :: c2 :: rest => "    " ++ sqQuote ++ c ++ sqQuote ++
      (if colType c = "" then "" else " " ++ colType c) ++ ",\n" ++
      tableLines (c2 :: rest)

/-- The `create table` statement from `databaseSchema`. -/
def createTableStatement (cols : List String) : String :=
  "create table if not exists logs(\n" ++ tableLines cols ++ ")"

/-- `fieldSet` (src/main.go line 443): the key set of the Go
`map[string]struct\x7b\x7d`, modelled as the list of inserted keys with
membership lookup. -/
def fieldSet : Type := List String

/-- `newFieldSet` (src/main.go lines 445-451). -/
def newFieldSet (ss : List String) : fieldSet := ss

/-- `fieldSet.has` (src/main.go lines 453-460): true iff every requested
field is a key of the set. -/
def fieldSet.has (fs : fieldSet) (fields : List String) : Bool :=
  fields.all (fun s => List.contains fs s)

/-- Quoted column list used by the fallback unique index in
`databaseSchema` (src/main.go lines 273-282): quoted names in order,
comma-separated. -/
def quotedCols : List String → String
  | [] => ""
  | [c] => sqQuote ++ c ++ sqQuote
  | c :: c2 :: rest => sqQuote ++ c ++ sqQuote ++ "," ++ quotedCols (c2 :: rest)

/-- The unique-index statement from `databaseSchema` (src/main.go lines
269-284): the two-column index when both `request_creation_time` and
`trace_id` are present, otherwise an index over every column in order. -/
def uniqueIndexStatement (cols : List String) : String :=
  if fieldSet.has (newFieldSet cols) ["request_creation_time", "trace_id"] then
    "create unique index if not exists idx0 on logs(request_creation_time, trace_id)"
  else
    "create unique index if not exists idx0 on logs(" ++ quotedCols cols ++ ")"

/-- `databaseSchema` (src/main.go lines 237-287): the create-table statement
followed by the unique-index statement. -/
def databaseSchema (cols : List String) : List String :=
  [createTableStatement cols, uniqueIndexStatement cols]

/-- Body of the insert statement built by the loop in `insertStatement`
(src/main.go lines 294-301): one `@column` placeholder per line, comma on
every line but the last. -/
def insertLines : List String → String
  | [] => ""
  | [c] => "    @" ++ c ++ "\n"
  | c :: c2 :: rest => "    @" ++ c ++ ",\n" ++ insertLines (c2 :: rest)

/-- `insertStatement` (src/main.go lines 291-304). -/
def insertStatement (cols : List String) : String :=
  "insert or ignore into logs values(\n" ++ insertLines cols ++ ")"

/-! ## ARN parsing (src/main.go, `accountAndRegion`) -/

/-- Split a character list at every occurrence of a separator character;
the result always has one more group than there are separators. -/
def splitChars (sep : Char) : List Char → List (List Char)
  | [] => [[]]
  | x :: xs =>
    match splitChars sep xs with
    | [] => [[]]
    | g :: gs => if x = sep then [] :: g :: gs else (x :: g) :: gs

/-- Model of Go `strings.Split(s, ":")`: every colon-delimited field of `s`
(the empty string yields one empty field). -/
def colonSplit (s : String) : List String :=
  (splitChars ':' s.data).map (fun cs => ⟨cs⟩)

/-- Model of Go `strings.SplitN(s, ":", n)` for `n > 0`: the full split
truncated to `n` pieces, the last piece absorbing the remaining colons. -/
def goSplitN (s : String) (n : Nat) : List String :=
  if (colonSplit s).length ≤ n then colonSplit s
  else (colonSplit s).take (n - 1) ++
    [String.intercalate ":" ((colonSplit s).drop (n - 1))]

/-- `accountAndRegion` (src/main.go lines 306-312): split the ARN on `:`
with limit 6, reject when fewer than 6 pieces result, and return the pieces
at 0-based positions 4 (account) and 3 (region). -/
def accountAndRegion (arn : String) : Except String (String × String) :=
  if (goSplitN arn 6).length ≠ 6 then
    .error ("bad ARN format: " ++ "\"" ++ arn ++ "\"")
  else .ok ((goSplitN arn 6).getD 4 "", (goSplitN arn 6).getD 3 "")

/-! ## Time and path model (src/main.go, `fullS3prefix` and `runArgs.populate`) -/

/-- Civil-calendar date `(year, month, day)` of a day count relative to the
Unix epoch (1970-01-01 is day 0), using floor division so negative days work.
Models the Gregorian-calendar computation Go's `time` package performs when
formatting a date. -/
def civilFromDays (z0 : Int) : Int × Int × Int :=
  let z := z0 + 719468
  let era : Int := z.fdiv 146097
  let doe : Int := z - era * 146097
  let yoe : Int := (doe - doe.fdiv 1460 + doe.fdiv 36524 - doe.fdiv 146096).fdiv 365
  let y : Int := yoe + era * 400
  let doy : Int := doe - (365 * yoe + yoe.fdiv 4 - yoe.fdiv 100)
  let mp : Int := (5 * doy + 2).fdiv 153
  let d : Int := doy - (153 * mp + 2).fdiv 5 + 1
  let m : Int := mp + (if mp < 10 then 3 else -9)
  (y + (if m ≤ 2 then 1 else 0), m, d)

/-- Zero-pad a number to two digits, as Go's `01`/`02` layout verbs do. -/
def pad2 (n : Int) : String :=
  if 0 ≤ n ∧ n < 10 then "0" ++ toString n else toString n

/-- Zero-pad a year to four digits, as Go's `2006` layout verb does. -/
def pad4 (n : Int) : String :=
  if 0 ≤ n ∧ n < 10 then "000" ++ toString n
  else if 0 ≤ n ∧ n < 100 then "00" ++ toString n
  else if 0 ≤ n ∧ n < 1000 then "0" ++ toString n
  else toString n

/-- Model of Go's `Format("2006/01/02")` applied to a clock reading given in
seconds: the calendar date of the containing day, rendered `YYYY/MM/DD`. -/
def goDateFormatYYYYMMDD (clockSec : Int) : String :=
  let ymd := civilFromDays (clockSec.fdiv 86400)
  pad4 ymd.1 ++ "/" ++ pad2 ymd.2.1 ++ "/" ++ pad2 ymd.2.2

/-- Model of a Go `time.Time`: an absolute instant (`sec`, Unix seconds) plus
the zone offset (`offset`, seconds east of UTC) of the location the time is
presented in. Comparisons and arithmetic use only `sec`; formatting reads the
local clock `sec + offset`. -/
structure GoTime where
  sec : Int
  offset : Int
  deriving DecidableEq

/-- `time.Time.UTC`: same instant, UTC presentation. -/
def GoTime.utc (t : GoTime) : GoTime := ⟨t.sec, 0⟩

/-- `Format("2006/01/02")` on a `GoTime`: formats the local clock reading. -/
def GoTime.formatDateYYYYMMDD (t : GoTime) : String :=
  goDateFormatYYYYMMDD (t.sec + t.offset)

/-- Stack pass of Go's `path.Clean` over slash-separated components:
drops empty and `.` components and resolves `..` against the accumulated
stack (kept literally at the top of an unrooted path, dropped at the root of
a rooted one). -/
def cleanStack (rooted : Bool) (acc : List String) : List String → List String
  | [] => acc
  | c :: rest =>
    if c = "" ∨ c = "." then cleanStack rooted acc rest
    else if c = ".." then
      match acc with
      | [] => if rooted then cleanStack rooted [] rest
              else cleanStack rooted [".."] rest
      | top :: below =>
        if top = ".." then cleanStack rooted (".." :: acc) rest
        else cleanStack rooted below rest
    else cleanStack rooted (c :: acc) rest

/-- Model of Go's `path.Clean`. -/
def pathClean (p : String) : String :=
  if p = "" then "."
  else
    let rooted := p.startsWith "/"
    let comps := (cleanStack rooted [] (p.splitOn "/")).reverse
    let joined := String.intercalate "/" comps
    if rooted then "/" ++ joined
    else if joined = "" then "." else joined

/-- Model of Go's `path.Join`: drop empty elements, join the rest with `/`,
and `Clean` the result; all-empty input yields the empty string. -/
def goPathJoin (elems : List String) : String :=
  let nonEmpty := elems.filter (fun e => e ≠ "")
  if nonEmpty.isEmpty then "" else pathClean (String.intercalate "/" nonEmpty)

/-- `fullS3prefix` (src/main.go lines 315-317): joins the configured prefix,
`AWSLogs`, the account, `elasticloadbalancing`, the region, and the
`YYYY/MM/DD` rendering of `t.UTC()`. -/
def fullS3path (t : GoTime) (pfx account region : String) : String :=
  goPathJoin [pfx, "AWSLogs", account, "elasticloadbalancing", region,
    GoTime.formatDateYYYYMMDD (GoTime.utc t)]

/-- The spec's "UTC calendar date of `t` formatted as YYYY/MM/DD": the date
of the absolute instant itself, by construction independent of the zone the
time was parsed in. -/
def utcCalendarDateString (t : GoTime) : String :=
  goDateFormatYYYYMMDD t.sec

/-- Default reference time from `runArgs.populate` (src/main.go line 81):
with no time string supplied, `time.Now().Add(-5 * time.Minute)`. -/
def populateDefaultTime (now : Int) : Int := now - 5 * 60

/-! ## CandidateKeySelector (src/main.go, `candidateKeys`) -/

/-- One listed S3 object as `candidateKeys` sees it: both the key and the
last-modified instant are optional pointers in the listing response. -/
structure S3Object where
  key : Option String
  lastModified : Option Int
  deriving DecidableEq

/-- The time filter of `candidateKeys` (src/main.go lines 324 and 335):
keeps `t` unless it is strictly before `refTime` or strictly after
`refTime + 5 minutes`. -/
def timeWindowKeeps (refTime t : Int) : Bool :=
  !(t < refTime ∨ t > refTime + 5 * 60 : Bool)

/-- Per-object filter of `candidateKeys` (src/main.go lines 331-338): skip
objects missing the last-modified instant or the key, keys not ending in
`.log.gz`, and instants outside the window; otherwise produce the key. -/
def keepObj (refTime : Int) (obj : S3Object) : Option String :=
  match obj.lastModified, obj.key with
  | some t, some k =>
    if !(k.endsWith ".log.gz") then none
    else if !(timeWindowKeeps refTime t) then none
    else some k
  | _, _ => none

/-- Inner loop of `candidateKeys` over one listing page, appending kept keys
to the accumulated output. -/
def collectPage (refTime : Int) (page : List S3Object) (out : List String) :
    List String :=
  match page with
  | [] => out
  | obj :: rest =>
    match keepObj refTime obj with
    | none => collectPage refTime rest out
    | some k => collectPage refTime rest (out ++ [k])

/-- `candidateKeys` (src/main.go lines 319-342) over the already-fetched
listing pages (pagination errors aside, the paginator just concatenates
pages): accumulate kept keys across all pages in listing order. -/
def candidateKeys (refTime : Int) (pages : List (List S3Object)) : List String :=
  go pages []
where
  go : List (List S3Object) → List String → List String
    | [], out => out
    | page :: more, out => go more (collectPage refTime page out)

/-- The spec's candidate filter, in its own words: the object has a key and
a last-modified timestamp, the key ends in the log-file suffix, and
`refTime ≤ t ≤ refTime + 5 minutes` with both bounds inclusive. -/
def specKeep (refTime : Int) (obj : S3Object) : Option String :=
  match obj.key, obj.lastModified with
  | some k, some t =>
    if k.endsWith ".log.gz" = true ∧ refTime ≤ t ∧ t ≤ refTime + 5 * 60 then
      some k
    else none
  | _, _ => none

/-! ## MetadataResolver (src/main.go, `loadMetadata`) -/

/-- One load-balancer attribute from `DescribeLoadBalancerAttributes`: key
and value are optional pointers. -/
structure Attr where
  key : Option String
  value : Option String
  deriving DecidableEq

/-- The attribute scan of `loadMetadata` (src/main.go lines 383-396):
attributes with a nil key or value are skipped; an
`access_logs.s3.enabled` attribute whose value differs from `"true"` aborts
with the logging-disabled error; bucket and prefix attributes overwrite the
collected values; everything else is ignored. Returns the collected
`(bucket, prefix)` pair. -/
def scanAttributes (bucket pfx : String) :
    List Attr → Except String (String × String)
  | [] => .ok (bucket, pfx)
  | a :: rest =>
    match a.key, a.value with
    | some k, some v =>
      if k = "access_logs.s3.enabled" ∧ v ≠ "true" then
        .error "load balancer has S3 logging disabled"
      else if k = "access_logs.s3.bucket" then scanAttributes v pfx rest
      else if k = "access_logs.s3.prefix" then scanAttributes bucket v rest
      else scanAttributes bucket pfx rest
    | _, _ => scanAttributes bucket pfx rest

/-- `metadata` (src/main.go lines 414-419). The Go field `Prefix` is named
`Pfx` here. -/
structure Metadata where
  Account : String
  Region : String
  Bucket : String
  Pfx : String
  deriving DecidableEq

/-- One entry of a `DescribeLoadBalancers` result: the name is an optional
pointer, the ARN is read unconditionally once the name matches. -/
structure LoadBalancer where
  name : Option String
  arn : String
  deriving DecidableEq

/-- The two control-plane discovery calls of `loadMetadata`, modelled as
already-materialized results: the identity lookup by name and the attribute
lookup by ARN, each either failing (API error) or returning its payload. -/
structure DiscoveryEnv where
  describeLoadBalancers : Except String (List LoadBalancer)
  describeAttributes : String → Except String (List Attr)

/-- The ARN-finding loop of `loadMetadata` (src/main.go lines 366-372):
the ARN of the first entry whose name matches, `""` when none matches. -/
def findALBarn (lbs : List LoadBalancer) (albName : String) : String :=
  match lbs.find? (fun lb => lb.name = some albName) with
  | some lb => lb.arn
  | none => ""

/-- The cache-miss path of `loadMetadata` (src/main.go lines 358-411):
identity lookup, ARN extraction, attribute lookup and scan, bucket check,
then account/region derivation from the ARN. The best-effort cache write at
the end is swallowed by the code and does not affect the result. -/
def discoverMetadata (env : DiscoveryEnv) (albName : String) :
    Except String Metadata :=
  match env.describeLoadBalancers with
  | .error e => .error e
  | .ok lbs =>
    let albARN := findALBarn lbs albName
    if albARN = "" then .error "cannot figure out load balancer ARN"
    else
      match env.describeAttributes albARN with
      | .error e => .error e
      | .ok attrs =>
        match scanAttributes "" "" attrs with
        | .error e => .error e
        | .ok bp =>
          if bp.1 = "" then
            .error "cannot figure out which S3 bucket is used for logs"
          else
            match accountAndRegion albARN with
            | .error e => .error e
            | .ok ar => .ok ⟨ar.1, ar.2, bp.1, bp.2⟩

/-- State of the on-disk cache file as `os.ReadFile` sees it: either the
read fails, or it yields the file's contents. -/
inductive CacheFileState
  | unreadable
  | contents (s : String)
  deriving DecidableEq

/-- Lookup of `fullCache[albName]` in the decoded cache map. -/
def lookupCache (entries : List (String × Metadata)) (albName : String) :
    Option Metadata :=
  (entries.find? (fun p => p.1 = albName)).map (fun p => p.2)

/-- The cache-consulting step of `loadMetadata` (src/main.go lines 347-356),
parameterized by the JSON decoder `decode` (model of `json.Unmarshal` into
`map[string]metadata`, returning `none` on any decode error — in particular
on the empty string, which is not valid JSON): the cached entry for
`albName`, provided the file read, the JSON decode, and the map lookup all
succeed; `none` on any failure along that path. -/
def cachedLookup (decode : String → Option (List (String × Metadata)))
    (cache : CacheFileState) (albName : String) : Option Metadata :=
  match cache with
  | .unreadable => none
  | .contents s =>
    match decode s with
    | none => none
    | some entries => lookupCache entries albName

/-- `loadMetadata` (src/main.go lines 346-412): if the cache yields an
entry, return it without contacting any remote service; otherwise run the
discovery path. -/
def loadMetadata (decode : String → Option (List (String × Metadata)))
    (cache : CacheFileState) (env : DiscoveryEnv) (albName : String) :
    Except String Metadata :=
  match cachedLookup decode cache albName with
  | some meta => .ok meta
  | none => discoverMetadata env albName

/-! ## IngestionEngine (src/main.go, `ingestLogFile` and the `run` loop) -/

/-- What fetching and decoding one S3 object can look like to
`ingestLogFile`: the `GetObject` call fails, the body is not a gzip stream
(`gzip.NewReader` fails), or the stream yields a sequence of parsed CSV
records; `streamErr` marks a gzip/CSV stream error surfaced by a `Read`
after those records. -/
inductive FetchBody
  | fetchError
  | badGzip
  | records (lines : List (List String)) (streamErr : Bool)
  deriving DecidableEq

/-- Environment of one ingestion run: the object body per key, and an
abstract per-row insert-execution fault (disk or statement failure of
`st.ExecContext`; `false` everywhere under normal operation, since
`insert or ignore` itself never reports constraint violations). -/
structure IngestEnv where
  object : String → FetchBody
  execFails : List String → Bool

/-- The deduplication key that the unique index `idx0` induces on a row
(semantics of the schema from `databaseSchema`): the
`(request_creation_time, trace_id)` projection when both columns exist,
otherwise the whole row. -/
def uniqueKeyOf (cols row : List String) : List String :=
  if List.contains cols "request_creation_time" ∧
     List.contains cols "trace_id" then
    [row.getD (List.indexOf "request_creation_time" cols) "",
     row.getD (List.indexOf "trace_id" cols) ""]
  else row

/-- Semantics of executing `insertStatement cols` (an
`insert or ignore into logs values(...)`) against the logs table: the row is
appended unless some existing row collides with it on the unique index, in
which case the statement is silently a no-op. -/
def insertOrIgnore (cols : List String) (db : List (List String))
    (row : List String) : List (List String) :=
  if db.any (fun r => uniqueKeyOf cols r = uniqueKeyOf cols row) then db
  else db ++ [row]

/-- The record loop of `ingestLogFile` (src/main.go lines 217-233) acting on
the transaction's view `tdb` of the table: each record must have exactly
`cols.length` fields (the `csv.Reader` with `FieldsPerRecord = len(cols)`
rejects others), a faulted insert aborts, a stream error after the last
record aborts, and reaching a clean end of stream commits the accumulated
view. -/
def ingestRows (env : IngestEnv) (cols : List String) (streamErr : Bool) :
    List (List String) → List (List String) →
    Except String (List (List String))
  | [], tdb =>
    if streamErr then .error "log stream read error" else .ok tdb
  | r :: rest, tdb =>
    if r.length ≠ cols.length then .error "wrong number of fields"
    else if env.execFails r then .error "insert execution error"
    else ingestRows env cols streamErr rest (insertOrIgnore cols tdb r)

/-- `ingestLogFile` (src/main.go lines 186-234): fetch, gunzip, parse and
insert inside one transaction; any error leaves the table as it was
(`defer tx.Rollback()`), success commits the new table state. -/
def ingestLogFile (env : IngestEnv) (cols : List String) (key : String)
    (db : List (List String)) : Except String (List (List String)) :=
  match env.object key with
  | .fetchError => .error "fetch error"
  | .badGzip => .error "gzip: invalid header"
  | .records lines streamErr => ingestRows env cols streamErr lines db

/-- The ingestion loop of `run` (src/main.go lines 155-163): process keys in
order while the index stays below `MaxSamples`; the first failing file stops
the run with the error wrapped as `ingesting "<key>": <err>` and leaves the
table as committed so far. Returns the final table and the optional error. -/
def runIngestLoop (env : IngestEnv) (cols : List String) (maxSamples : Nat) :
    List String → Nat → List (List String) →
    List (List String) × Option String
  | [], _, db => (db, none)
  | k :: rest, i, db =>
    if i = maxSamples then (db, none)
    else
      match ingestLogFile env cols k db with
      | .error e => (db, some ("ingesting " ++ "\"" ++ k ++ "\"" ++ ": " ++ e))
      | .ok db2 => runIngestLoop env cols maxSamples rest (i + 1) db2

/-- Helper: run `ingestLogFile` over a list of keys, succeeding only if
every file commits; used to describe the state after a fully successful
prefix of the run. -/
def ingestAll (env : IngestEnv) (cols : List String) :
    List String → List (List String) → Option (List (List String))
  | [], db => some db
  | k :: rest, db =>
    match ingestLogFile env cols k db with
    | .error _ => none
    | .ok db2 => ingestAll env cols rest db2

/-! ## Spec-side definitions used to state the claims -/

/-- The spec's enumeration of byte/status/priority fields typed INTEGER. -/
def integerFields : List String :=
  ["elb_status_code", "target_status_code", "received_bytes", "sent_bytes",
   "matched_rule_priority"]

/-- The spec's enumeration of processing-time fields typed REAL. -/
def realFields : List String :=
  ["request_processing_time", "target_processing_time",
   "response_processing_time"]

/-- The spec's column type annotation: ` INTEGER` for the enumerated integer
fields, ` REAL` for the enumerated floating-point fields, nothing
otherwise. -/
def specColSqlType (c : String) : String :=
  if c ∈ integerFields then " INTEGER" else if c ∈ realFields then " REAL" else ""

/-- One column entry of the create-table statement, per the spec: the quoted
name followed by its type annotation. -/
def specTableLine (c : String) : String :=
  "    " ++ sqQuote ++ c ++ sqQuote ++ specColSqlType c

/-- The create-table body per the spec: every column entry, in the given
field order, comma-separated. -/
def specTableBody (cols : List String) : String :=
  if cols.isEmpty then ""
  else String.intercalate ",\n" (cols.map specTableLine) ++ "\n"

/-- The condition under which the attribute scan aborts with the
logging-disabled error: an `access_logs.s3.enabled` attribute is present
(non-nil key and value) whose value is not the string `"true"`. -/
def disabledTrigger (a : Attr) : Prop :=
  a.key = some "access_logs.s3.enabled" ∧ ∃ v, a.value = some v ∧ v ≠ "true"

/-- The failure modes of one log file that claim C2 quantifies over: the
body is not a gzip stream, the record stream ends in a gzip/CSV read error,
some record's field count differs from the schema length, or some insert
execution faults. -/
def fileParseOrExecFails (env : IngestEnv) (cols : List String) (k : String) :
    Prop :=
  env.object k = .badGzip ∨
  ∃ lines streamErr, env.object k = .records lines streamErr ∧
    (streamErr = true ∨ ∃ r ∈ lines, r.length ≠ cols.length ∨
      env.execFails r = true)

/-- Ingestion environment used by the C1 witness. -/
def envC1W : IngestEnv :=
  { object := fun _ => .records [["x", "t"], ["x", "t"]] false,
    execFails := fun _ => false }

def envC2W : IngestEnv :=
  { object := fun k =>
      if k = "good.log.gz" then .records [["a", "b"]] false
      else .records [["only"]] false,
    execFails := fun _ => false }

def denvC9W : DiscoveryEnv :=
  { describeLoadBalancers := .error "api unavailable",
    describeAttributes := fun _ => .error "api unavailable" }

/-! ## Lemmas and claim theorems -/

theorem intercalateGo_append (s : String) : ∀ (as : List String) (x y : String),
    String.intercalate.go (x ++ y) s as = x ++ String.intercalate.go y s as := by
  intro as
  induction as with
  | nil => intro x y; rfl
  | cons a as ih =>
    intro x y
    show String.intercalate.go (x ++ y ++ s ++ a) s as =
      x ++ String.intercalate.go (y ++ s ++ a) s as
    rw [String.append_assoc (x ++ y) s a, String.append_assoc x y (s ++ a),
      ih x (y ++ (s ++ a)), String.append_assoc y s a]

theorem intercalate_cons_cons (s a b : String) (l : List String) :
    String.intercalate s (a :: b :: l) = a ++ s ++ String.intercalate s (b :: l) := by
  show String.intercalate.go (a ++ s ++ b) s l = a ++ s ++ String.intercalate.go b s l
  rw [intercalateGo_append s l (a ++ s) b]

theorem colType_eq_mem (c : String) :
    colType c =
      (if c ∈ integerFields then "INTEGER" else if c ∈ realFields then "REAL" else "") := by
  simp only [integerFields, realFields, List.mem_cons, List.mem_singleton,
    List.not_mem_nil, or_false]
  unfold colType
  split_ifs <;> rfl

theorem colAnn_eq (c : String) :
    (if colType c = "" then "" else " " ++ colType c) = specColSqlType c := by
  rw [colType_eq_mem]; unfold specColSqlType
  by_cases hI : c ∈ integerFields
  · simp [hI]
  · by_cases hR : c ∈ realFields
    · simp [hI, hR]
    · simp [hI, hR]

theorem tableLines_eq (cols : List String) : tableLines cols = specTableBody cols := by
  induction cols with
  | nil => rfl
  | cons c rest ih =>
    cases rest with
    | nil =>
      show "    " ++ sqQuote ++ c ++ sqQuote ++
          (if colType c = "" then "" else " " ++ colType c) ++ "\n" = specTableBody [c]
      rw [colAnn_eq]
      rfl
    | cons c2 rest2 =>
      show "    " ++ sqQuote ++ c ++ sqQuote ++
          (if colType c = "" then "" else " " ++ colType c) ++ ",\n" ++
          tableLines (c2 :: rest2) = specTableBody (c :: c2 :: rest2)
      rw [colAnn_eq, ih]
      show specTableLine c ++ ",\n" ++ specTableBody (c2 :: rest2) =
        specTableBody (c :: c2 :: rest2)
      unfold specTableBody
      simp only [List.isEmpty_cons, List.map_cons]
      rw [intercalate_cons_cons]
      simp [String.append_assoc]

theorem has_iff (cols : List String) (a b : String) :
    fieldSet.has (newFieldSet cols) [a, b] = true ↔ a ∈ cols ∧ b ∈ cols := by
  simp [fieldSet.has, newFieldSet, List.contains, List.elem_iff]

theorem quotedCols_eq (cols : List String) :
    quotedCols cols = String.intercalate "," (cols.map (fun c => sqQuote ++ c ++ sqQuote)) := by
  induction cols with
  | nil => rfl
  | cons c rest ih =>
    cases rest with
    | nil => rfl
    | cons c2 rest2 =>
      show sqQuote ++ c ++ sqQuote ++ "," ++ quotedCols (c2 :: rest2) = _
      rw [ih]
      simp only [List.map_cons]
      rw [intercalate_cons_cons]

theorem goSplitN_len (s : String) :
    ((goSplitN s 6).length = 6 ↔ 6 ≤ (colonSplit s).length) ∧
    ((colonSplit s).length ≤ 6 → goSplitN s 6 = colonSplit s) := by
  unfold goSplitN
  constructor
  · split_ifs with h
    · omega
    · simp only [List.length_append, List.length_take, List.length_cons,
        List.length_nil]
      omega
  · intro h
    rw [if_pos h]

theorem timeWindowKeeps_iff (refTime t : Int) :
    timeWindowKeeps refTime t = true ↔ refTime ≤ t ∧ t ≤ refTime + 5 * 60 := by
  simp only [timeWindowKeeps, Bool.not_eq_true', decide_eq_false_iff_not,
    not_or, not_lt]

theorem keepObj_eq_specKeep (refTime : Int) (obj : S3Object) :
    keepObj refTime obj = specKeep refTime obj := by
  rcases obj with ⟨key, lm⟩
  rcases key with _ | k <;> rcases lm with _ | t <;>
    simp only [keepObj, specKeep]
  by_cases he : k.endsWith ".log.gz" = true
  · simp only [he, Bool.not_true, if_false, true_and]
    by_cases h1 : refTime ≤ t ∧ t ≤ refTime + 5 * 60
    · have hw : timeWindowKeeps refTime t = true := (timeWindowKeeps_iff refTime t).2 h1
      rw [if_pos h1]
      simp [hw]
    · have hw : timeWindowKeeps refTime t = false := by
        cases hb : timeWindowKeeps refTime t
        · rfl
        · exact absurd ((timeWindowKeeps_iff refTime t).1 hb) h1
      rw [if_neg h1]
      simp [hw]
  · simp [he]

theorem collectPage_eq (refTime : Int) (page : List S3Object) :
    ∀ out, collectPage refTime page out =
      out ++ page.filterMap (keepObj refTime) := by
  induction page with
  | nil => intro out; simp [collectPage]
  | cons obj rest ih =>
    intro out
    cases h : keepObj refTime obj with
    | none => simp [collectPage, h, ih, List.filterMap_cons]
    | some k => simp [collectPage, h, ih, List.filterMap_cons]

theorem candidateKeysGo_eq (refTime : Int) :
    ∀ (pages : List (List S3Object)) (out : List String),
      candidateKeys.go refTime pages out =
        out ++ (pages.flatten).filterMap (keepObj refTime) := by
  intro pages
  induction pages with
  | nil => intro out; simp [candidateKeys.go]
  | cons page more ih =>
    intro out
    simp [candidateKeys.go, collectPage_eq, ih, List.filterMap_append]

theorem specKeep_eq_some (refTime : Int) (obj : S3Object) (k : String) :
    specKeep refTime obj = some k ↔
      obj.key = some k ∧ ∃ t, obj.lastModified = some t ∧
        k.endsWith ".log.gz" = true ∧ refTime ≤ t ∧ t ≤ refTime + 5 * 60 := by
  rcases obj with ⟨key, lm⟩
  rcases key with _ | k2 <;> rcases lm with _ | t
  · simp [specKeep]
  · simp [specKeep]
  · simp [specKeep]
  · have hrw : specKeep refTime ⟨some k2, some t⟩ =
        (if k2.endsWith ".log.gz" = true ∧ refTime ≤ t ∧ t ≤ refTime + 5 * 60
         then some k2 else none) := rfl
    rw [hrw]
    by_cases hc : k2.endsWith ".log.gz" = true ∧ refTime ≤ t ∧ t ≤ refTime + 5 * 60
    · rw [if_pos hc]
      simp only [Option.some.injEq]
      constructor
      · intro h
        subst h
        exact ⟨rfl, t, rfl, hc⟩
      · rintro ⟨hk, t2, ht2, hc2⟩
        exact hk
    · rw [if_neg hc]
      constructor
      · intro h
        exact absurd h (Option.noConfusion)
      · rintro ⟨hk, t2, ht2, hc2⟩
        rw [Option.some.injEq] at hk ht2
        subst hk
        subst ht2
        exact absurd hc2 hc

theorem scanSkipStep (a : Attr) (rest : List Attr) (b p b2 p2 : String)
    (hrw : scanAttributes b p (a :: rest) = scanAttributes b2 p2 rest)
    (hhead : ¬ disabledTrigger a)
    (ih : ∀ b p, ((∃ e, scanAttributes b p rest = .error e) ↔
        ∃ x ∈ rest, disabledTrigger x) ∧
      (∀ e, scanAttributes b p rest = .error e →
        e = "load balancer has S3 logging disabled")) :
    ((∃ e, scanAttributes b p (a :: rest) = .error e) ↔
      ∃ x ∈ a :: rest, disabledTrigger x) ∧
    (∀ e, scanAttributes b p (a :: rest) = .error e →
      e = "load balancer has S3 logging disabled") := by
  constructor
  · rw [hrw, (ih b2 p2).1]
    constructor
    · rintro ⟨x, hx, hp⟩
      exact ⟨x, List.mem_cons_of_mem _ hx, hp⟩
    · rintro ⟨x, hx, hp⟩
      rcases List.mem_cons.1 hx with rfl | hx2
      · exact absurd hp hhead
      · exact ⟨x, hx2, hp⟩
  · intro e he
    rw [hrw] at he
    exact (ih b2 p2).2 e he

theorem scanAttributes_error_iff : ∀ (attrs : List Attr) (b p : String),
    ((∃ e, scanAttributes b p attrs = .error e) ↔
      ∃ x ∈ attrs, disabledTrigger x) ∧
    (∀ e, scanAttributes b p attrs = .error e →
      e = "load balancer has S3 logging disabled") := by
  intro attrs
  induction attrs with
  | nil =>
    intro b p
    refine ⟨⟨?_, ?_⟩, ?_⟩
    · rintro ⟨e, he⟩
      exact Except.noConfusion he
    · rintro ⟨x, hx, _⟩
      exact absurd hx (List.not_mem_nil x)
    · intro e he
      exact Except.noConfusion he
  | cons a rest ih =>
    intro b p
    rcases a with ⟨ka, va⟩
    rcases ka with _ | k
    · refine scanSkipStep _ _ b p b p ?_ ?_ ih
      · cases va <;> rfl
      · rintro ⟨hk, _⟩
        exact Option.noConfusion hk
    · rcases va with _ | v
      · refine scanSkipStep _ _ b p b p rfl ?_ ih
        rintro ⟨_, v2, hv2, _⟩
        exact Option.noConfusion hv2
      · by_cases htrig : k = "access_logs.s3.enabled" ∧ v ≠ "true"
        · have hrw : scanAttributes b p (⟨some k, some v⟩ :: rest) =
              .error "load balancer has S3 logging disabled" := by
            show (if k = "access_logs.s3.enabled" ∧ v ≠ "true" then _ else _) = _
            rw [if_pos htrig]
          refine ⟨⟨?_, ?_⟩, ?_⟩
          · intro _
            exact ⟨⟨some k, some v⟩, List.mem_cons_self _ _,
              by rw [htrig.1], v, rfl, htrig.2⟩
          · intro _
            exact ⟨_, hrw⟩
          · intro e he
            rw [hrw] at he
            injection he with he2
            exact he2.symm
        · have hrw : scanAttributes b p (⟨some k, some v⟩ :: rest) =
              (if k = "access_logs.s3.bucket" then scanAttributes v p rest
               else if k = "access_logs.s3.prefix" then scanAttributes b v rest
               else scanAttributes b p rest) := by
            show (if k = "access_logs.s3.enabled" ∧ v ≠ "true" then _ else _) = _
            rw [if_neg htrig]
          have hhead : ¬ disabledTrigger ⟨some k, some v⟩ := by
            rintro ⟨hk, v2, hv2, hne⟩
            rw [Option.some.injEq] at hk hv2
            refine htrig ⟨hk, ?_⟩
            rw [hv2]
            exact hne
          split_ifs at hrw with h1 h2
          · exact scanSkipStep _ _ b p v p hrw hhead ih
          · exact scanSkipStep _ _ b p b v hrw hhead ih
          · exact scanSkipStep _ _ b p b p hrw hhead ih

theorem mem_insertOrIgnore (cols : List String) (db : List (List String))
    (row x : List String) (hx : x ∈ db) : x ∈ insertOrIgnore cols db row := by
  unfold insertOrIgnore
  split_ifs
  · exact hx
  · exact List.mem_append_left _ hx

theorem insertOrIgnore_key_mem (cols : List String) (db : List (List String))
    (row : List String) :
    ∃ r ∈ insertOrIgnore cols db row,
      uniqueKeyOf cols r = uniqueKeyOf cols row := by
  unfold insertOrIgnore
  split_ifs with h
  · obtain ⟨r, hr, hkey⟩ := List.any_eq_true.1 h
    exact ⟨r, hr, of_decide_eq_true hkey⟩
  · exact ⟨row, List.mem_append_right _ (List.mem_singleton_self row), rfl⟩

theorem foldl_insert_mem (cols : List String) (rows : List (List String)) :
    ∀ (db : List (List String)) (x : List String), x ∈ db →
      x ∈ List.foldl (insertOrIgnore cols) db rows := by
  induction rows with
  | nil => intro db x hx; exact hx
  | cons r rest ih =>
    intro db x hx
    exact ih _ x (mem_insertOrIgnore cols db r x hx)

theorem foldl_insert_key_covered (cols : List String) (rows : List (List String)) :
    ∀ (db : List (List String)) (r : List String), r ∈ rows →
      ∃ r2 ∈ List.foldl (insertOrIgnore cols) db rows,
        uniqueKeyOf cols r2 = uniqueKeyOf cols r := by
  induction rows with
  | nil => intro db r hr; exact absurd hr (List.not_mem_nil r)
  | cons hd rest ih =>
    intro db r hr
    rcases List.mem_cons.1 hr with rfl | hr2
    · obtain ⟨r2, hr2, hkey⟩ := insertOrIgnore_key_mem cols db r
      exact ⟨r2, foldl_insert_mem cols rest _ r2 hr2, hkey⟩
    · exact ih _ r hr2

theorem foldl_insert_noop (cols : List String) (rows : List (List String)) :
    ∀ (db : List (List String)),
      (∀ r ∈ rows, ∃ r2 ∈ db, uniqueKeyOf cols r2 = uniqueKeyOf cols r) →
      List.foldl (insertOrIgnore cols) db rows = db := by
  induction rows with
  | nil => intro db _; rfl
  | cons hd rest ih =>
    intro db h
    have hhd : insertOrIgnore cols db hd = db := by
      unfold insertOrIgnore
      obtain ⟨r2, hr2, hkey⟩ := h hd (List.mem_cons_self hd rest)
      rw [if_pos]
      exact List.any_eq_true.2 ⟨r2, hr2, decide_eq_true hkey⟩
    rw [List.foldl_cons, hhd]
    exact ih db (fun r hr => h r (List.mem_cons_of_mem hd hr))

theorem ingestRows_ok (env : IngestEnv) (cols : List String)
    (lines : List (List String))
    (hlen : ∀ r ∈ lines, r.length = cols.length)
    (hexec : ∀ r ∈ lines, env.execFails r = false) :
    ∀ tdb, ingestRows env cols false lines tdb =
      .ok (List.foldl (insertOrIgnore cols) tdb lines) := by
  induction lines with
  | nil => intro tdb; rfl
  | cons r rest ih =>
    intro tdb
    have h1 : ¬ r.length ≠ cols.length :=
      fun hne => hne (hlen r (List.mem_cons_self r rest))
    have h2 : env.execFails r = false := hexec r (List.mem_cons_self r rest)
    show (if r.length ≠ cols.length then Except.error "wrong number of fields"
      else if env.execFails r then Except.error "insert execution error"
      else ingestRows env cols false rest (insertOrIgnore cols tdb r)) = _
    rw [if_neg h1, h2]
    show ingestRows env cols false rest (insertOrIgnore cols tdb r) = _
    rw [ih (fun x hx => hlen x (List.mem_cons_of_mem r hx))
      (fun x hx => hexec x (List.mem_cons_of_mem r hx))]
    rfl

theorem ingestRows_error (env : IngestEnv) (cols : List String) :
    ∀ (lines : List (List String)) (streamErr : Bool)
      (tdb : List (List String)),
      (streamErr = true ∨ ∃ r ∈ lines, r.length ≠ cols.length ∨
        env.execFails r = true) →
      ∃ e, ingestRows env cols streamErr lines tdb = .error e := by
  intro lines
  induction lines with
  | nil =>
    intro streamErr tdb h
    rcases h with rfl | ⟨r, hr, _⟩
    · exact ⟨"log stream read error", rfl⟩
    · exact absurd hr (List.not_mem_nil r)
  | cons r rest ih =>
    intro streamErr tdb h
    show ∃ e, (if r.length ≠ cols.length then Except.error "wrong number of fields"
      else if env.execFails r then Except.error "insert execution error"
      else ingestRows env cols streamErr rest (insertOrIgnore cols tdb r)) = .error e
    by_cases h1 : r.length ≠ cols.length
    · rw [if_pos h1]
      exact ⟨_, rfl⟩
    · rw [if_neg h1]
      cases h2 : env.execFails r with
      | true => exact ⟨_, rfl⟩
      | false =>
        show ∃ e, ingestRows env cols streamErr rest (insertOrIgnore cols tdb r) = .error e
        refine ih streamErr _ ?_
        rcases h with hs | ⟨r2, hr2, hp⟩
        · exact Or.inl hs
        · rcases List.mem_cons.1 hr2 with rfl | hr3
          · rcases hp with hp | hp
            · exact absurd hp h1
            · rw [h2] at hp
              exact absurd hp (by simp)
          · exact Or.inr ⟨r2, hr3, hp⟩

theorem ingest_error (env : IngestEnv) (cols : List String) (k : String)
    (h : fileParseOrExecFails env cols k) :
    ∀ db, ∃ e, ingestLogFile env cols k db = .error e := by
  intro db
  rcases h with hbad | ⟨lines, streamErr, hobj, hrest⟩
  · exact ⟨"gzip: invalid header", by rw [ingestLogFile, hbad]⟩
  · obtain ⟨e, he⟩ := ingestRows_error env cols lines streamErr db hrest
    exact ⟨e, by rw [ingestLogFile, hobj]; exact he⟩

theorem runLoop_shift (env : IngestEnv) (cols : List String) (maxS : Nat) :
    ∀ (keys1 : List String) (i : Nat) (db0 db1 : List (List String))
      (tail : List String),
      ingestAll env cols keys1 db0 = some db1 →
      i + keys1.length < maxS →
      runIngestLoop env cols maxS (keys1 ++ tail) i db0 =
        runIngestLoop env cols maxS tail (i + keys1.length) db1 := by
  intro keys1
  induction keys1 with
  | nil =>
    intro i db0 db1 tail hall _
    injection hall with hall
    subst hall
    rfl
  | cons k rest ih =>
    intro i db0 db1 tail hall hbound
    have hi : i ≠ maxS := by
      simp only [List.length_cons] at hbound
      omega
    show (if i = maxS then (db0, none)
      else match ingestLogFile env cols k db0 with
        | .error e => (db0, some ("ingesting " ++ "\"" ++ k ++ "\"" ++ ": " ++ e))
        | .ok db2 => runIngestLoop env cols maxS (rest ++ tail) (i + 1) db2) = _
    rw [if_neg hi]
    have hall2 : (match ingestLogFile env cols k db0 with
      | .error _ => none
      | .ok db2 => ingestAll env cols rest db2) = some db1 := hall
    cases hk : ingestLogFile env cols k db0 with
    | error e =>
      rw [hk] at hall2
      exact Option.noConfusion hall2
    | ok db2 =>
      rw [hk] at hall2
      have hall3 : ingestAll env cols rest db2 = some db1 := hall2
      show runIngestLoop env cols maxS (rest ++ tail) (i + 1) db2 = _
      rw [ih (i + 1) db2 db1 tail hall3 (by
        simp only [List.length_cons] at hbound
        omega)]
      congr 1
      simp only [List.length_cons]
      omega

/-- C1: for a file whose records all carry exactly the schema's field count
(and whose stream and inserts do not fault), ingesting it once commits a
table state that a second ingestion of the same file — in the same run or a
later one — maps to itself: the insert template is an insert-or-ignore
statement, colliding rows are silently skipped, and the repeated ingestion
still succeeds with the same rows. -/
theorem ingest_idempotent (env : IngestEnv) (cols : List String) (key : String)
    (lines : List (List String)) (db : List (List String))
    (hobj : env.object key = .records lines false)
    (hlen : ∀ r ∈ lines, r.length = cols.length)
    (hexec : ∀ r ∈ lines, env.execFails r = false) :
    ∃ db1, ingestLogFile env cols key db = .ok db1 ∧
      ingestLogFile env cols key db1 = .ok db1 ∧
      ∃ rest, insertStatement cols =
        "insert or ignore into logs values(\n" ++ rest := by
  refine ⟨List.foldl (insertOrIgnore cols) db lines, ?_, ?_,
    ⟨insertLines cols ++ ")", rfl⟩⟩
  · rw [ingestLogFile, hobj]
    exact ingestRows_ok env cols lines hlen hexec db
  · rw [ingestLogFile, hobj]
    show ingestRows env cols false lines
      (List.foldl (insertOrIgnore cols) db lines) = _
    rw [ingestRows_ok env cols lines hlen hexec _,
      foldl_insert_noop cols lines _
        (fun r hr => foldl_insert_key_covered cols lines db r hr)]

theorem ingest_idempotent_witness :
    (envC1W.object "k.log.gz" = .records [["x", "t"], ["x", "t"]] false) ∧
    (∀ r ∈ [["x", "t"], ["x", "t"]],
      r.length = (["request_creation_time", "trace_id"] : List String).length) ∧
    (∀ r ∈ [["x", "t"], ["x", "t"]], envC1W.execFails r = false) ∧
    (∃ db1, ingestLogFile envC1W ["request_creation_time", "trace_id"]
        "k.log.gz" [] = .ok db1 ∧
      ingestLogFile envC1W ["request_creation_time", "trace_id"]
        "k.log.gz" db1 = .ok db1 ∧
      ∃ rest, insertStatement ["request_creation_time", "trace_id"] =
        "insert or ignore into logs values(\n" ++ rest) :=
  ⟨rfl, by decide, by decide,
    ingest_idempotent envC1W ["request_creation_time", "trace_id"] "k.log.gz"
      [["x", "t"], ["x", "t"]] [] rfl (by decide) (by decide)⟩

/-- C2: if a file's body is not gzip, its record stream errors, any record's
field count differs from the schema length, or any insert faults, then the
run stops with the error wrapped as `ingesting "<key>": <err>` and the table
equals exactly the state committed by the earlier files of the run — zero
rows of the failing file are committed. -/
theorem ingest_failure_rolls_back (env : IngestEnv) (cols : List String)
    (maxS : Nat) (keys1 : List String) (k : String) (keys2 : List String)
    (db0 db1 : List (List String))
    (hpre : ingestAll env cols keys1 db0 = some db1)
    (hbound : keys1.length < maxS)
    (hfail : fileParseOrExecFails env cols k) :
    ∃ e, ingestLogFile env cols k db1 = .error e ∧
      runIngestLoop env cols maxS (keys1 ++ k :: keys2) 0 db0 =
        (db1, some ("ingesting " ++ "\"" ++ k ++ "\"" ++ ": " ++ e)) := by
  obtain ⟨e, he⟩ := ingest_error env cols k hfail db1
  refine ⟨e, he, ?_⟩
  rw [runLoop_shift env cols maxS keys1 0 db0 db1 (k :: keys2) hpre
    (by omega)]
  show (if 0 + keys1.length = maxS then (db1, none)
    else match ingestLogFile env cols k db1 with
      | .error e => (db1, some ("ingesting " ++ "\"" ++ k ++ "\"" ++ ": " ++ e))
      | .ok db2 => runIngestLoop env cols maxS keys2 (0 + keys1.length + 1) db2) = _
  rw [if_neg (by omega), he]

theorem ingest_failure_rolls_back_witness :
    (ingestAll envC2W ["request_creation_time", "trace_id"] ["good.log.gz"] [] =
      some [["a", "b"]]) ∧
    ((["good.log.gz"] : List String).length < 2) ∧
    fileParseOrExecFails envC2W ["request_creation_time", "trace_id"]
      "bad.log.gz" ∧
    (∃ e, ingestLogFile envC2W ["request_creation_time", "trace_id"]
        "bad.log.gz" [["a", "b"]] = .error e ∧
      runIngestLoop envC2W ["request_creation_time", "trace_id"] 2
          (["good.log.gz"] ++ "bad.log.gz" :: []) 0 [] =
        ([["a", "b"]],
          some ("ingesting " ++ "\"" ++ "bad.log.gz" ++ "\"" ++ ": " ++ e))) :=
  ⟨rfl, by decide,
    Or.inr ⟨[["only"]], false, rfl,
      Or.inr ⟨["only"], List.mem_singleton_self _, Or.inl (by decide)⟩⟩,
    ingest_failure_rolls_back envC2W ["request_creation_time", "trace_id"] 2
      ["good.log.gz"] "bad.log.gz" [] [] [["a", "b"]] rfl (by decide)
      (Or.inr ⟨[["only"]], false, rfl,
        Or.inr ⟨["only"], List.mem_singleton_self _, Or.inl (by decide)⟩⟩)⟩

/-- C9: an unreadable cache file, or one whose contents the JSON decoder
rejects (in particular the empty file, since zero bytes are not valid
JSON), behaves exactly like an empty cache: resolution runs the discovery
path, never surfaces a cache-layer error, and succeeds whenever discovery
does. -/
theorem cacheCorruption_full_miss
    (decode : String → Option (List (String × Metadata)))
    (cache : CacheFileState) (env : DiscoveryEnv) (albName : String)
    (h : cache = .unreadable ∨ ∃ s, cache = .contents s ∧ decode s = none) :
    loadMetadata decode cache env albName = discoverMetadata env albName ∧
    (∀ s0, decode s0 = some [] →
      loadMetadata decode cache env albName =
        loadMetadata decode (.contents s0) env albName) ∧
    (∀ m, discoverMetadata env albName = .ok m →
      loadMetadata decode cache env albName = .ok m) := by
  have hc : cachedLookup decode cache albName = none := by
    rcases h with rfl | ⟨s, rfl, hdec⟩
    · rfl
    · show (match decode s with
        | none => none
        | some entries => lookupCache entries albName) = none
      rw [hdec]
  have h1 : loadMetadata decode cache env albName = discoverMetadata env albName := by
    show (match cachedLookup decode cache albName with
      | some meta => Except.ok meta
      | none => discoverMetadata env albName) = _
    rw [hc]
  refine ⟨h1, ?_, ?_⟩
  · intro s0 h0
    rw [h1]
    show _ = (match cachedLookup decode (.contents s0) albName with
      | some meta => Except.ok meta
      | none => discoverMetadata env albName)
    have : cachedLookup decode (.contents s0) albName = none := by
      show (match decode s0 with
        | none => none
        | some entries => lookupCache entries albName) = none
      rw [h0]
      rfl
    rw [this]
  · intro m hm
    rw [h1, hm]

theorem cacheCorruption_full_miss_witness :
    ((CacheFileState.contents "" = CacheFileState.unreadable ∨
      ∃ s, CacheFileState.contents "" = CacheFileState.contents s ∧
        (fun _ : String =>
          (none : Option (List (String × Metadata)))) s = none)) ∧
    (loadMetadata (fun _ => none) (.contents "") denvC9W "my-alb" =
      discoverMetadata denvC9W "my-alb") :=
  ⟨Or.inr ⟨"", rfl, rfl⟩,
    (cacheCorruption_full_miss (fun _ => none) (.contents "") denvC9W "my-alb"
      (Or.inr ⟨"", rfl, rfl⟩)).1⟩

/-- C3: when the field list contains both `request_creation_time` and
`trace_id`, the generated unique index is exactly on those two columns;
otherwise it covers every column of the field list, in the given order. -/
theorem uniqueIndex_selection (cols : List String) :
    (("request_creation_time" ∈ cols ∧ "trace_id" ∈ cols) →
      uniqueIndexStatement cols =
        "create unique index if not exists idx0 on logs(request_creation_time, trace_id)") ∧
    (¬("request_creation_time" ∈ cols ∧ "trace_id" ∈ cols) →
      uniqueIndexStatement cols =
        "create unique index if not exists idx0 on logs(" ++
          String.intercalate "," (cols.map (fun c => sqQuote ++ c ++ sqQuote)) ++ ")") := by
  have hb := has_iff cols "request_creation_time" "trace_id"
  constructor
  · intro h
    show (if fieldSet.has (newFieldSet cols) ["request_creation_time", "trace_id"]
      then _ else _) = _
    rw [if_pos (hb.2 h)]
  · intro h
    show (if fieldSet.has (newFieldSet cols) ["request_creation_time", "trace_id"]
      then _ else _) = _
    rw [if_neg (fun hh => h (hb.1 hh)), quotedCols_eq]

theorem uniqueIndex_selection_witness :
    ("request_creation_time" ∈ (["type", "request_creation_time", "trace_id"] : List String) ∧
      "trace_id" ∈ (["type", "request_creation_time", "trace_id"] : List String)) ∧
    uniqueIndexStatement ["type", "request_creation_time", "trace_id"] =
      "create unique index if not exists idx0 on logs(request_creation_time, trace_id)" :=
  ⟨⟨by decide, by decide⟩,
    (uniqueIndex_selection ["type", "request_creation_time", "trace_id"]).1
      ⟨by decide, by decide⟩⟩

/-- C4: a listed object's key appears in the candidate-key output iff the
object has a key and a last-modified instant, the key ends in `.log.gz`,
and `refTime ≤ t ≤ refTime + 5 minutes` (both bounds inclusive); objects
missing either field are skipped without error, and the output is the
order-preserving filter of the listing accumulated across all pages. -/
theorem candidateKeys_spec (refTime : Int) (pages : List (List S3Object)) :
    candidateKeys refTime pages =
      (pages.flatten).filterMap (specKeep refTime) ∧
    ∀ k : String, k ∈ candidateKeys refTime pages ↔
      ∃ obj ∈ pages.flatten, obj.key = some k ∧
        ∃ t, obj.lastModified = some t ∧
          k.endsWith ".log.gz" = true ∧ refTime ≤ t ∧ t ≤ refTime + 5 * 60 := by
  have h1 : candidateKeys refTime pages =
      (pages.flatten).filterMap (specKeep refTime) := by
    show candidateKeys.go refTime pages [] = _
    rw [candidateKeysGo_eq]
    simp only [List.nil_append]
    exact List.filterMap_congr (fun obj _ => keepObj_eq_specKeep refTime obj)
  refine ⟨h1, fun k => ?_⟩
  rw [h1, List.mem_filterMap]
  constructor
  · rintro ⟨obj, hmem, hk⟩
    exact ⟨obj, hmem, (specKeep_eq_some refTime obj k).1 hk⟩
  · rintro ⟨obj, hmem, hprops⟩
    exact ⟨obj, hmem, (specKeep_eq_some refTime obj k).2 hprops⟩

/-- C5: for every reference time, in whatever zone offset it was parsed,
the listing prefix is the path join of the configured prefix, `AWSLogs`,
the account, `elasticloadbalancing`, the region, and the UTC calendar date
of the instant as `YYYY/MM/DD` — independent of the zone offset. -/
theorem fullS3path_utc_date (sec off : Int) (pfx account region : String) :
    fullS3path ⟨sec, off⟩ pfx account region =
      goPathJoin [pfx, "AWSLogs", account, "elasticloadbalancing", region,
        utcCalendarDateString ⟨sec, off⟩] ∧
    ∀ off2 : Int,
      fullS3path ⟨sec, off⟩ pfx account region =
        fullS3path ⟨sec, off2⟩ pfx account region := by
  constructor
  · simp [fullS3path, GoTime.utc, GoTime.formatDateYYYYMMDD, utcCalendarDateString]
  · intro off2
    simp [fullS3path, GoTime.utc, GoTime.formatDateYYYYMMDD]

/-- C6: the create-table statement lists the columns in exactly the given
field order, and the column typing assigns INTEGER to exactly the five
enumerated byte/status/priority names, REAL to exactly the three
processing-time names, and no annotation to every other name. -/
theorem databaseSchema_column_types (cols : List String) :
    createTableStatement cols =
      "create table if not exists logs(\n" ++ specTableBody cols ++ ")" ∧
    ∀ c : String,
      (colType c = "INTEGER" ↔ c ∈ integerFields) ∧
      (colType c = "REAL" ↔ c ∈ realFields) ∧
      (colType c = "" ↔ c ∉ integerFields ∧ c ∉ realFields) := by
  refine ⟨by rw [createTableStatement, tableLines_eq], fun c => ?_⟩
  rw [colType_eq_mem c]
  by_cases hI : c ∈ integerFields
  · have hR : c ∉ realFields := by
      simp only [integerFields, List.mem_cons, List.mem_singleton,
        List.not_mem_nil, or_false] at hI
      rcases hI with h | h | h | h | h <;> subst h <;> decide
    simp [hI, hR]
  · by_cases hR : c ∈ realFields
    · simp [hI, hR]
    · simp [hI, hR]

/-- C7 (amended): deriving account and region splits the identity string on
colons with limit 6 — the sixth piece absorbing any further colons — takes
the 0-based 4th piece as account and 3rd as region, and fails exactly when
the string has fewer than six colon-delimited fields; a string with more
than six full fields is accepted, not rejected. -/
theorem accountAndRegion_iff (arn : String) :
    ((∃ e, accountAndRegion arn = .error e) ↔ (colonSplit arn).length < 6) ∧
    (6 ≤ (colonSplit arn).length →
      (goSplitN arn 6).length = 6 ∧
      accountAndRegion arn =
        .ok ((goSplitN arn 6).getD 4 "", (goSplitN arn 6).getD 3 "")) := by
  have hl := goSplitN_len arn
  constructor
  · constructor
    · rintro ⟨e, he⟩
      by_contra hge
      push_neg at hge
      have h6 : (goSplitN arn 6).length = 6 := hl.1.2 hge
      unfold accountAndRegion at he
      rw [if_neg (by omega)] at he
      exact Except.noConfusion he
    · intro hlt
      refine ⟨"bad ARN format: " ++ "\"" ++ arn ++ "\"", ?_⟩
      unfold accountAndRegion
      have : (goSplitN arn 6).length ≠ 6 := by
        intro h6
        have := hl.1.1 h6
        omega
      rw [if_pos this]
  · intro hge
    have h6 : (goSplitN arn 6).length = 6 := hl.1.2 hge
    refine ⟨h6, ?_⟩
    unfold accountAndRegion
    rw [if_neg (by omega)]

/-- C7 counterexample: `"a:b:c:d:e:f:g"` has seven colon-delimited fields,
yet `accountAndRegion` succeeds instead of failing as the claim states. -/
theorem accountAndRegion_seven_fields :
    (colonSplit "a:b:c:d:e:f:g").length = 7 ∧
    accountAndRegion "a:b:c:d:e:f:g" = .ok ("e", "d") :=
  ⟨rfl, rfl⟩

theorem accountAndRegion_iff_witness :
    6 ≤ (colonSplit "arn:aws:elasticloadbalancing:us-east-1:123456789012:loadbalancer/app/my-lb/x").length ∧
    ((goSplitN "arn:aws:elasticloadbalancing:us-east-1:123456789012:loadbalancer/app/my-lb/x" 6).length = 6 ∧
      accountAndRegion "arn:aws:elasticloadbalancing:us-east-1:123456789012:loadbalancer/app/my-lb/x" =
        .ok ((goSplitN "arn:aws:elasticloadbalancing:us-east-1:123456789012:loadbalancer/app/my-lb/x" 6).getD 4 "",
          (goSplitN "arn:aws:elasticloadbalancing:us-east-1:123456789012:loadbalancer/app/my-lb/x" 6).getD 3 "")) :=
  ⟨by decide,
    (accountAndRegion_iff "arn:aws:elasticloadbalancing:us-east-1:123456789012:loadbalancer/app/my-lb/x").2
      (by decide)⟩

/-- C8 (amended): the attribute scan fails — always with the
logging-disabled error — iff an `access_logs.s3.enabled` attribute is
present (non-nil key and value) whose value is any string other than
`"true"`, not only the explicit string `"false"`; when the attribute is
absent or equal to `"true"` the scan proceeds. -/
theorem scanAttributes_disabled_iff (attrs : List Attr) (b p : String) :
    ((∃ e, scanAttributes b p attrs = .error e) ↔
      ∃ a ∈ attrs, a.key = some "access_logs.s3.enabled" ∧
        ∃ v, a.value = some v ∧ v ≠ "true") ∧
    (∀ e, scanAttributes b p attrs = .error e →
      e = "load balancer has S3 logging disabled") :=
  scanAttributes_error_iff attrs b p

/-- C8 counterexample: an enabled-attribute value of `"0"` — which is not
the explicit string `"false"` — still makes the scan fail, refuting the
claim's "if and only if ... explicitly false". -/
theorem scanAttributes_explicit_false_counterexample :
    (∃ e, scanAttributes "" ""
      [⟨some "access_logs.s3.enabled", some "0"⟩] = .error e) ∧
    ¬ (∃ a ∈ ([⟨some "access_logs.s3.enabled", some "0"⟩] : List Attr),
      a.key = some "access_logs.s3.enabled" ∧ a.value = some "false") :=
  ⟨⟨"load balancer has S3 logging disabled", rfl⟩, by decide⟩

theorem scanAttributes_disabled_iff_witness :
    scanAttributes "" "" [⟨some "access_logs.s3.enabled", some "false"⟩] =
      .error "load balancer has S3 logging disabled" ∧
    "load balancer has S3 logging disabled" =
      "load balancer has S3 logging disabled" :=
  ⟨rfl,
    (scanAttributes_disabled_iff [⟨some "access_logs.s3.enabled", some "false"⟩]
      "" "").2 "load balancer has S3 logging disabled" rfl⟩

/-- C10: with no reference time string supplied the reference time defaults
to now minus 5 minutes, so the candidate window `[refTime, refTime + 5min]`
is exactly `[now - 5min, now]`. -/
theorem default_reference_window (now t : Int) :
    populateDefaultTime now = now - 5 * 60 ∧
    populateDefaultTime now + 5 * 60 = now ∧
    (timeWindowKeeps (populateDefaultTime now) t = true ↔
      now - 5 * 60 ≤ t ∧ t ≤ now) := by
  refine ⟨rfl, by unfold populateDefaultTime; omega, ?_⟩
  rw [timeWindowKeeps_iff]
  unfold populateDefaultTime
  omega
